import Mathlib

/-
Verification development for the `codeExecutor` router of the plugins-server
repository (src/routes/codeExecutor/codeExecutorRouter.ts).

The router manages code files (`.py` / `.jac`) in a storage directory:
GET reads a file, POST executes it, PUT creates it, PATCH applies a
sed-style find/replace directive, DELETE moves it to a `.trash` folder.

The embedding below translates the router's pure logic:
  * `isAllowedFile` — the extension whitelist (router line 31);
  * `parseDirective` — the JavaScript regular expression
    `^s(.)(.*?)\1(.*?)\1([g]?)$` applied via `message.match` (line 222),
    modelled with JavaScript semantics: `.` matches any character except
    the four line terminators, the two `(.*?)` groups are lazy (shortest
    match first, with backtracking), `\1` is a back-reference to the
    delimiter, and `$` anchors at the very end of the string;
  * `replaceFirstBy` / `replaceAllBy` / `jsReplace` — the scanning loop
    of `fileContent.replace(regExp, replaceStr)` (line 248): leftmost
    search, single replacement without the `g` flag, repeated
    non-overlapping left-to-right replacement with it (empty matches
    advance by one position).  What constitutes a match, and the text
    inserted for it (GetSubstitution of the replacement template), is the
    host regex engine's business and is abstracted as per-position
    oracles (`JsRegex`, `SubstOracle`), so no assumption is made about
    metacharacters in the find segment or `$`-sequences in the
    replacement;
  * `Store` and the five operations — the filesystem state visible to the
    router, as an association list of (filename, content) pairs for the
    storage root plus an optional one for the lazily created `.trash`
    directory.  `fs.renameSync` (line 306) replaces an existing
    destination file silently, which the `deleteOp` translation mirrors.
Host-engine regex compilation (`new RegExp(findPattern, flags)`, line 238)
is an external boundary and is passed to `patchOp` as an oracle
`compile : String → String → Except String JsRegex` returning either the
compiled regex's per-position match behavior or the compiler's error
message.
-/

namespace CodeExec

/-- JavaScript line terminators: `.` in a regex without the `s` flag
matches any character except these four. -/
def isLineTerm (c : Char) : Bool :=
  c = '\n' || c = '\r' || c = '\u2028' || c = '\u2029'

/-- Models JavaScript `String.prototype.endsWith` on whole strings. -/
def strEndsWith (s suffix : String) : Bool :=
  suffix.data.reverse.isPrefixOf s.data.reverse

/-- Translation of `isAllowedFile` (router lines 31–33):
`filename.endsWith('.py') || filename.endsWith('.jac')`. -/
def isAllowedFile (filename : String) : Bool :=
  strEndsWith filename ".py" || strEndsWith filename ".jac"

/-- Result of parsing the sed-style message: the captures `match[2]`
(find pattern), `match[3]` (replacement) and `match[4]` (flags, either
`""` or `"g"`) of the router's regular expression. -/
structure ReplaceDirective where
  findPattern : String
  replaceStr : String
  flags : String
deriving DecidableEq

/-- Matches the anchored tail `([g]?)$` of the router's regex: the text
after the third delimiter must be empty or the single flag `g`. -/
def tailFlags (l : List Char) : Option Bool :=
  if l = [] then some false
  else if l = ['g'] then some true
  else none

/-- Matches `(.*?)\1([g]?)$` against the text after the second delimiter:
the lazy group tries the shortest replacement first, extending it (over
any non-line-terminator character, including further copies of the
delimiter) whenever the anchored tail fails to match. -/
def parseRepl (D : Char) : List Char → Option (List Char × Bool)
  | [] => none
  | c :: rest =>
    match (if c = D then tailFlags rest else none) with
    | some g => some ([], g)
    | none =>
      if isLineTerm c then none
      else (parseRepl D rest).map (fun p => (c :: p.1, p.2))

/-- Matches `(.*?)\1(.*?)\1([g]?)$` against the text after the first
delimiter: the lazy find group tries the shortest prefix ending at a
delimiter for which the rest of the pattern succeeds, backtracking past a
delimiter occurrence whose tail fails. -/
def parseFind (D : Char) : List Char → Option (List Char × List Char × Bool)
  | [] => none
  | c :: rest =>
    match (if c = D then parseRepl D rest else none) with
    | some (r, g) => some ([], r, g)
    | none =>
      if isLineTerm c then none
      else (parseFind D rest).map (fun p => (c :: p.1, p.2))

/-- Translation of `message.match(/^s(.)(.*?)\1(.*?)\1([g]?)$/)` together
with the extraction of `findPattern`, `replaceStr` and `flags` (router
lines 222–235).  Returns `none` exactly when the JavaScript match is
`null`. -/
def parseDirective (message : String) : Option ReplaceDirective :=
  match message.data with
  | c :: D :: rest =>
    if c = 's' ∧ isLineTerm D = false then
      match parseFind D rest with
      | some (f, r, g) => some ⟨String.mk f, String.mk r, if g then "g" else ""⟩
      | none => none
    else none
  | _ => none

/-- Shape asserted by the claim, in its own words: the command is the
literal `s`, then a delimiter `D` (any single character), then `find`,
`D`, `replace`, `D`, then an optional trailing `g`. -/
def matchesClaimShape (cmd : String) : Prop :=
  ∃ (D : Char) (find repl flags : List Char),
    (flags = [] ∨ flags = ['g']) ∧
    cmd.data = 's' :: D :: (find ++ D :: (repl ++ D :: flags))

/-- Shape the translated regular expression actually accepts: the claim's
shape restricted by the host `.` semantics — neither the delimiter nor
the find/replace segments may contain a line terminator. -/
def matchesCodeShape (cmd : String) : Prop :=
  ∃ (D : Char) (find repl flags : List Char),
    (flags = [] ∨ flags = ['g']) ∧
    isLineTerm D = false ∧
    (∀ c ∈ find, isLineTerm c = false) ∧
    (∀ c ∈ repl, isLineTerm c = false) ∧
    cmd.data = 's' :: D :: (find ++ D :: (repl ++ D :: flags))

/-- Per-position behavior of a host regular expression paired with the
request's replacement string, as consumed by `String.prototype.replace`:
at content `s` and position `i`, `none` when the compiled regex does not
match at `i`, or `some (len, ins)` — the extent of the (deterministic)
match the backtracking engine commits to at `i`, and the ECMAScript
GetSubstitution expansion of the replacement template for that match's
captures.  This is the host-engine boundary: nothing below assumes the
pattern is literal or the replacement free of `$`-sequences. -/
abbrev MatchSubst : Type := List Char → Nat → Option (Nat × List Char)

/-- Behavior of a compiled regular expression alone (`new RegExp`'s
result): the extent of the match at a position of the content, if any.
A real engine only reports matches lying inside the content
(`i + len ≤ s.length`). -/
abbrev JsRegex : Type := List Char → Nat → Option Nat

/-- GetSubstitution as an oracle: the text the host engine inserts for
the match at the given position and extent of the given content — the
replacement template expanded with the match's captures.  For a
`$`-free template it is the template itself, but nothing assumes that. -/
abbrev SubstOracle : Type := List Char → Nat → Nat → List Char

/-- Pairing of a compiled regex with the expansion oracle of the
request's replacement template. -/
def toMatchSubst (rgx : JsRegex) (subst : SubstOracle) : MatchSubst :=
  fun s i => (rgx s i).map (fun len => (len, subst s i len))

/-- Scanning loop of `content.replace(regExp, replaceStr)` for a regex
without the `g` flag: search left to right for the first position where
the engine matches, replace that single match with its expansion, and
keep everything else — in particular the whole tail after the match —
verbatim.  `p` is the absolute position of the suffix `rem` within `s`;
with no match anywhere the content is returned unchanged. -/
def replaceFirstBy (m : MatchSubst) (s : List Char) : Nat → List Char → List Char
  | p, rem =>
    match m s p with
    | some r => r.2 ++ rem.drop r.1
    | none =>
      match rem with
      | [] => []
      | c :: rest => c :: replaceFirstBy m s (p + 1) rest

/-- Scanning loop of `content.replace(regExp, replaceStr)` for a regex
with the `g` flag: replace every match left to right, resuming right
after each match (one position further for an empty match, per
AdvanceStringIndex), so matches never overlap.  `p` is the absolute
position of the suffix `rem` within `s`; `skip` counts characters of a
match already consumed, during which no new match is probed.  A match
extending past the end of the content cannot come from a real engine;
the scan then stops after the insertion. -/
def replaceAllBy (m : MatchSubst) (s : List Char) : Nat → Nat → List Char → List Char
  | p, skip + 1, rem =>
    match rem with
    | [] => []
    | _ :: rest => replaceAllBy m s (p + 1) skip rest
  | p, 0, rem =>
    match m s p with
    | some (len, ins) =>
      if len = 0 then
        match rem with
        | [] => ins
        | c :: rest => ins ++ c :: replaceAllBy m s (p + 1) 0 rest
      else
        match rem with
        | [] => ins
        | _ :: rest => ins ++ replaceAllBy m s (p + 1) (len - 1) rest
    | none =>
      match rem with
      | [] => []
      | c :: rest => c :: replaceAllBy m s (p + 1) 0 rest

/-- Translation of `fileContent.replace(regExp, replaceStr)` (router line
248) for a parsed directive, given the per-position behavior `m` of the
compiled regex and replacement template: the `g` flag selects the global
scan, its absence first-match-only. -/
def jsReplace (m : MatchSubst) (d : ReplaceDirective) (content : String) : String :=
  if d.flags = "g" then String.mk (replaceAllBy m content.data 0 0 content.data)
  else String.mk (replaceFirstBy m content.data 0 content.data)

/-- Substitution step of the PATCH handler assembled from the two host
oracles: the compiled regex from line 238 and the template expansion of
line 248's replacement. -/
def regexReplace (rgx : JsRegex) (subst : SubstOracle) (d : ReplaceDirective)
    (content : String) : String :=
  jsReplace (toMatchSubst rgx subst) d content

/-- HTTP status codes the router uses (`http-status-codes` constants). -/
def StatusCodes.OK : Nat := 200

/-- Bad request status code. -/
def StatusCodes.BAD_REQUEST : Nat := 400

/-- Not found status code. -/
def StatusCodes.NOT_FOUND : Nat := 404

/-- Conflict status code. -/
def StatusCodes.CONFLICT : Nat := 409

/-- Internal server error status code. -/
def StatusCodes.INTERNAL_SERVER_ERROR : Nat := 500

/-- Structured payloads the router places in a `ServiceResponse`'s
`responseObject`: `{ code }` on read, `{ newContent }` on patch,
`{ stdout, stderr }` on execute. -/
inductive Payload where
  | code (c : String)
  | newContent (c : String)
  | streams (stdout stderr : String)
deriving DecidableEq

/-- Translation of the `ServiceResponse` envelope the router builds for
every reply: success flag (`ResponseStatus`), human-readable message,
optional structured payload, and HTTP status code. -/
structure ServiceResponse where
  success : Bool
  message : String
  responseObject : Option Payload
  statusCode : Nat
deriving DecidableEq

/-- Association-list lookup for a directory of files: the content stored
under a filename, `none` when the file does not exist (`fs.existsSync`
false). -/
def lookupFile : List (String × String) → String → Option String
  | [], _ => none
  | (k, v) :: rest, n => if k = n then some v else lookupFile rest n

/-- Removal of a filename from a directory (the source side of
`fs.renameSync`, or cleanup). -/
def eraseFile : List (String × String) → String → List (String × String)
  | [], _ => []
  | (k, v) :: rest, n =>
    if k = n then eraseFile rest n else (k, v) :: eraseFile rest n

/-- Write of `v` under filename `n`, replacing any previous entry: models
`fs.writeFileSync` and the destination side of `fs.renameSync`, both of
which replace an existing file silently. -/
def writeFile (fs : List (String × String)) (n v : String) : List (String × String) :=
  (n, v) :: eraseFile fs n

/-- Filesystem state visible to the router: the storage root
`code_storage` as a directory of files, and the `.trash` subdirectory,
`none` until its lazy creation by the first delete. -/
structure Store where
  files : List (String × String)
  trash : Option (List (String × String))
deriving DecidableEq

/-- Result of `exec(command, callback)` as observed by the router's
callback: an optional error message plus captured stdout and stderr. -/
structure ExecOutcome where
  error : Option String
  stdout : String
  stderr : String
deriving DecidableEq

/-- Storage directory name (the router resolves `code_storage` relative
to its own location; the path prefix is abstracted to the name). -/
def codeStorageDir : String := "code_storage"

/-- Models `path.join` for the simple `dir/file` joins the router does. -/
def pathJoin (a b : String) : String := a ++ "/" ++ b

/-- Translation of the GET handler (router lines 38–77): extension gate,
existence check, then `fs.readFileSync` returning `{ code }`. -/
def getOp (store : Store) (filename : String) : ServiceResponse × Store :=
  if isAllowedFile filename = false then
    (⟨false, "File type not allowed", none, StatusCodes.BAD_REQUEST⟩, store)
  else
    match lookupFile store.files filename with
    | none =>
      (⟨false, "File " ++ filename ++ " not found", none, StatusCodes.NOT_FOUND⟩, store)
    | some code =>
      (⟨true, "File " ++ filename ++ " read successfully", some (Payload.code code),
        StatusCodes.OK⟩, store)

/-- Translation of the POST handler (router lines 80–133): extension
gate, existence check, command construction (`python` for `.py`,
`jac run` for `.jac`, otherwise the unreachable "Unsupported file
extension" reply), then `exec` through the host-process oracle. -/
def executeOp (exec : String → ExecOutcome) (store : Store) (filename : String) :
    ServiceResponse × Store :=
  if isAllowedFile filename = false then
    (⟨false, "File type not allowed", none, StatusCodes.BAD_REQUEST⟩, store)
  else
    match lookupFile store.files filename with
    | none =>
      (⟨false, "File " ++ filename ++ " not found", none, StatusCodes.NOT_FOUND⟩, store)
    | some _ =>
      let filePath := pathJoin codeStorageDir filename
      if strEndsWith filename ".py" || strEndsWith filename ".jac" then
        let command :=
          if strEndsWith filename ".py" then "python " ++ filePath
          else "jac run " ++ filePath
        let outcome := exec command
        match outcome.error with
        | some emsg =>
          (⟨false, "Error executing file: " ++ emsg,
            some (Payload.streams outcome.stdout outcome.stderr),
            StatusCodes.INTERNAL_SERVER_ERROR⟩, store)
        | none =>
          (⟨true, "Executed file " ++ filename ++ " successfully",
            some (Payload.streams outcome.stdout outcome.stderr), StatusCodes.OK⟩, store)
      else
        (⟨false, "Unsupported file extension", none, StatusCodes.BAD_REQUEST⟩, store)

/-- Translation of the PUT handler (router lines 136–185): extension
gate, `typeof code !== 'string'` check (`none` models a missing or
non-string body field), then the create-only existence check and
`fs.writeFileSync`. -/
def putOp (store : Store) (filename : String) (code : Option String) :
    ServiceResponse × Store :=
  if isAllowedFile filename = false then
    (⟨false, "File type not allowed", none, StatusCodes.BAD_REQUEST⟩, store)
  else
    match code with
    | none =>
      (⟨false, "Code must be a string", none, StatusCodes.BAD_REQUEST⟩, store)
    | some codeStr =>
      match lookupFile store.files filename with
      | some _ =>
        (⟨false, "File " ++ filename ++ " already exists", none, StatusCodes.CONFLICT⟩,
          store)
      | none =>
        (⟨true, "File " ++ filename ++ " created successfully", none, StatusCodes.OK⟩,
          ⟨writeFile store.files filename codeStr, store.trash⟩)

/-- Translation of the PATCH handler (router lines 188–275).  The body
check `!message || typeof message !== 'string'` comes first (a missing or
non-string `message` is `none`; the empty string is falsy too), then the
extension gate, the existence check, `message.match` (`parseDirective`),
`new RegExp(findPattern, flags)` through the `compile` oracle, the
substitution (`regexReplace`, driven by the compiled regex and the
`subst` template-expansion oracle), the no-change comparison, and finally
`fs.writeFileSync`. -/
def patchOp (compile : String → String → Except String JsRegex) (subst : SubstOracle)
    (store : Store) (filename : String) (message : Option String) :
    ServiceResponse × Store :=
  match message with
  | none =>
    (⟨false, "Replacement message must be provided as a string", none,
      StatusCodes.BAD_REQUEST⟩, store)
  | some msg =>
    if msg = "" then
      (⟨false, "Replacement message must be provided as a string", none,
        StatusCodes.BAD_REQUEST⟩, store)
    else if isAllowedFile filename = false then
      (⟨false, "File type not allowed", none, StatusCodes.BAD_REQUEST⟩, store)
    else
      match lookupFile store.files filename with
      | none =>
        (⟨false, "File " ++ filename ++ " not found", none, StatusCodes.NOT_FOUND⟩,
          store)
      | some fileContent =>
        match parseDirective msg with
        | none =>
          (⟨false,
            "Invalid find/replace message format. Expected format: s<delimiter>find<delimiter>replace<delimiter>flags",
            none, StatusCodes.BAD_REQUEST⟩, store)
        | some d =>
          match compile d.findPattern d.flags with
          | Except.error emsg =>
            (⟨false, "Invalid regular expression: " ++ emsg, none,
              StatusCodes.BAD_REQUEST⟩, store)
          | Except.ok rgx =>
            let newContent := regexReplace rgx subst d fileContent
            if newContent = fileContent then
              (⟨false,
                "No matching text found in file " ++ filename ++
                  " or replacement did not change the content",
                some (Payload.newContent newContent), StatusCodes.BAD_REQUEST⟩, store)
            else
              (⟨true, "File " ++ filename ++ " updated successfully",
                some (Payload.newContent newContent), StatusCodes.OK⟩,
                ⟨writeFile store.files filename newContent, store.trash⟩)

/-- Translation of the DELETE handler (router lines 278–323): extension
gate, existence check, lazy `.trash` creation (`fs.mkdirSync`), then
`fs.renameSync(filePath, trashPath)`, which silently replaces a
same-named file already in the trash directory. -/
def deleteOp (store : Store) (filename : String) : ServiceResponse × Store :=
  if isAllowedFile filename = false then
    (⟨false, "File type not allowed", none, StatusCodes.BAD_REQUEST⟩, store)
  else
    match lookupFile store.files filename with
    | none =>
      (⟨false, "File " ++ filename ++ " not found", none, StatusCodes.NOT_FOUND⟩, store)
    | some content =>
      let trashDir := (store.trash).getD []
      (⟨true, "File " ++ filename ++ " moved to trash successfully", none,
        StatusCodes.OK⟩,
        ⟨eraseFile store.files filename, some (writeFile trashDir filename content)⟩)

/-- Looking up a freshly written file returns the written content. -/
theorem lookupFile_writeFile_self (fs : List (String × String)) (n v : String) :
    lookupFile (writeFile fs n v) n = some v := by
  simp [writeFile, lookupFile]

/-- Looking up an erased file fails. -/
theorem lookupFile_eraseFile_self (fs : List (String × String)) (n : String) :
    lookupFile (eraseFile fs n) n = none := by
  induction fs with
  | nil => simp [eraseFile, lookupFile]
  | cons p rest ih =>
    obtain ⟨k, v⟩ := p
    by_cases hk : k = n
    · simpa [eraseFile, hk] using ih
    · simpa [eraseFile, lookupFile, hk] using ih

/-- C5: the save (PUT) operation is create-only: with an allowed filename,
saving over an existing file fails with the FileAlreadyExists conflict and
changes nothing, while saving an absent file writes the given content,
reports success, and the written content is stored verbatim. -/
theorem C5_save_create_only (store : Store) (filename code : String)
    (hallow : isAllowedFile filename = true) :
    (∀ existing, lookupFile store.files filename = some existing →
      putOp store filename (some code) =
        (⟨false, "File " ++ filename ++ " already exists", none, StatusCodes.CONFLICT⟩,
          store)) ∧
    (lookupFile store.files filename = none →
      putOp store filename (some code) =
        (⟨true, "File " ++ filename ++ " created successfully", none, StatusCodes.OK⟩,
          ⟨writeFile store.files filename code, store.trash⟩) ∧
      lookupFile (writeFile store.files filename code) filename = some code) := by
  constructor
  · intro existing hex
    simp [putOp, hallow, hex]
  · intro habs
    exact ⟨by simp [putOp, hallow, habs], lookupFile_writeFile_self _ _ _⟩

/-- Witness for C5 at a concrete store: saving over the existing
`test.jac` yields the conflict reply and leaves the store unchanged. -/
theorem C5_save_create_only_witness :
    putOp ⟨[("test.jac", "old")], none⟩ "test.jac" (some "new") =
      (⟨false, "File test.jac already exists", none, StatusCodes.CONFLICT⟩,
        ⟨[("test.jac", "old")], none⟩) := by
  have h := C5_save_create_only ⟨[("test.jac", "old")], none⟩ "test.jac" "new" (by decide)
  exact (h.1 "old" (by decide)).trans (by decide)

/-- C6 evaluation: with `a.py` present in the storage root and a
same-named file already in trash, delete succeeds and silently replaces
the trashed content (the translation of `fs.renameSync`, which overwrites
its destination), contradicting the claim that the previously trashed
content is never replaced without an error. -/
theorem C6_trash_overwrite_eval :
    lookupFile [("a.py", "old trashed content")] "a.py" = some "old trashed content" ∧
    deleteOp ⟨[("a.py", "new content")], some [("a.py", "old trashed content")]⟩ "a.py" =
      (⟨true, "File a.py moved to trash successfully", none, StatusCodes.OK⟩,
        ⟨[], some [("a.py", "new content")]⟩) := by
  constructor
  · decide
  · decide

/-- C8: for an allowed, absent filename, saving content `C` and then
reading the file back returns exactly `C`, unaltered. -/
theorem C8_save_read_round_trip (store : Store) (f C : String)
    (hallow : isAllowedFile f = true)
    (habs : lookupFile store.files f = none) :
    (putOp store f (some C)).1.success = true ∧
    getOp (putOp store f (some C)).2 f =
      (⟨true, "File " ++ f ++ " read successfully", some (Payload.code C),
        StatusCodes.OK⟩, (putOp store f (some C)).2) := by
  constructor
  · simp [putOp, hallow, habs]
  · simp [putOp, getOp, hallow, habs, lookupFile_writeFile_self]

/-- Witness for C8: round-trip of a concrete content through a concrete
store. -/
theorem C8_save_read_round_trip_witness :
    getOp (putOp ⟨[], none⟩ "f.py" (some "  spaced  content  ")).2 "f.py" =
      (⟨true, "File f.py read successfully", some (Payload.code "  spaced  content  "),
        StatusCodes.OK⟩, (putOp ⟨[], none⟩ "f.py" (some "  spaced  content  ")).2) := by
  exact (C8_save_read_round_trip ⟨[], none⟩ "f.py" "  spaced  content  "
    (by decide) (by decide)).2

/-- C9: deleting an allowed existing file succeeds, removes it from the
storage root, places its unchanged content under the lazily created trash
directory, and a second delete of the same filename fails with the
FileNotFound reply. -/
theorem C9_delete_lifecycle (store : Store) (f c : String)
    (hallow : isAllowedFile f = true)
    (hexists : lookupFile store.files f = some c) :
    deleteOp store f =
      (⟨true, "File " ++ f ++ " moved to trash successfully", none, StatusCodes.OK⟩,
        ⟨eraseFile store.files f, some (writeFile (store.trash.getD []) f c)⟩) ∧
    lookupFile (eraseFile store.files f) f = none ∧
    lookupFile (writeFile (store.trash.getD []) f c) f = some c ∧
    deleteOp ⟨eraseFile store.files f, some (writeFile (store.trash.getD []) f c)⟩ f =
      (⟨false, "File " ++ f ++ " not found", none, StatusCodes.NOT_FOUND⟩,
        ⟨eraseFile store.files f, some (writeFile (store.trash.getD []) f c)⟩) := by
  refine ⟨by simp [deleteOp, hallow, hexists], lookupFile_eraseFile_self _ _,
    lookupFile_writeFile_self _ _ _, ?_⟩
  simp [deleteOp, hallow, lookupFile_eraseFile_self]

/-- Witness for C9: the full delete lifecycle on a concrete store whose
trash directory does not exist yet. -/
theorem C9_delete_lifecycle_witness :
    deleteOp ⟨[("test.jac", "keep me")], none⟩ "test.jac" =
      (⟨true, "File test.jac moved to trash successfully", none, StatusCodes.OK⟩,
        ⟨[], some [("test.jac", "keep me")]⟩) ∧
    deleteOp ⟨[], some [("test.jac", "keep me")]⟩ "test.jac" =
      (⟨false, "File test.jac not found", none, StatusCodes.NOT_FOUND⟩,
        ⟨[], some [("test.jac", "keep me")]⟩) := by
  have h := C9_delete_lifecycle ⟨[("test.jac", "keep me")], none⟩ "test.jac" "keep me"
    (by decide) (by decide)
  exact ⟨h.1.trans (by decide), (by decide : deleteOp ⟨[], some [("test.jac", "keep me")]⟩
    "test.jac" = deleteOp ⟨eraseFile [("test.jac", "keep me")] "test.jac",
      some (writeFile ((none : Option (List (String × String))).getD []) "test.jac"
        "keep me")⟩ "test.jac").trans (h.2.2.2.trans (by decide))⟩

/-- C2 counterexample: for the disallowed filename `x.txt`, a patch
request without a body message fails with the body-validation reply, not
with the FileTypeNotAllowed reply — the PATCH handler checks the message
before the extension gate (router lines 191 and 200). -/
theorem C2_counterexample :
    isAllowedFile "x.txt" = false ∧
    patchOp (fun _ _ => Except.ok (fun _ _ => none)) (fun _ _ _ => []) ⟨[], none⟩
        "x.txt" none =
      (⟨false, "Replacement message must be provided as a string", none,
        StatusCodes.BAD_REQUEST⟩, ⟨[], none⟩) ∧
    "Replacement message must be provided as a string" ≠ "File type not allowed" := by
  exact ⟨by decide, rfl, by decide⟩

/-- C2 amended: for every disallowed filename, read, execute, save and
delete fail with the FileTypeNotAllowed reply with the store untouched and
the reply independent of the store; patch does too whenever the body
message is a nonempty string, but a missing, non-string or empty message
makes patch fail with the body-validation reply instead — that check
precedes the extension gate. -/
theorem C2_amended (filename : String) (h : isAllowedFile filename = false) :
    (∀ store, getOp store filename =
      (⟨false, "File type not allowed", none, StatusCodes.BAD_REQUEST⟩, store)) ∧
    (∀ ex store, executeOp ex store filename =
      (⟨false, "File type not allowed", none, StatusCodes.BAD_REQUEST⟩, store)) ∧
    (∀ store code, putOp store filename code =
      (⟨false, "File type not allowed", none, StatusCodes.BAD_REQUEST⟩, store)) ∧
    (∀ store, deleteOp store filename =
      (⟨false, "File type not allowed", none, StatusCodes.BAD_REQUEST⟩, store)) ∧
    (∀ compile subst store msg, msg ≠ "" →
      patchOp compile subst store filename (some msg) =
        (⟨false, "File type not allowed", none, StatusCodes.BAD_REQUEST⟩, store)) ∧
    (∀ compile subst store, patchOp compile subst store filename none =
      (⟨false, "Replacement message must be provided as a string", none,
        StatusCodes.BAD_REQUEST⟩, store)) ∧
    (∀ compile subst store, patchOp compile subst store filename (some "") =
      (⟨false, "Replacement message must be provided as a string", none,
        StatusCodes.BAD_REQUEST⟩, store)) := by
  refine ⟨fun store => ?_, fun ex store => ?_, fun store code => ?_, fun store => ?_,
    fun compile subst store msg hmsg => ?_, fun compile subst store => rfl,
    fun compile subst store => ?_⟩
  · simp [getOp, h]
  · simp [executeOp, h]
  · simp [putOp, h]
  · simp [deleteOp, h]
  · simp [patchOp, hmsg, h]
  · simp [patchOp]

/-- Witness for C2 amended: the gate and the patch body-validation
precedence evaluated at `x.txt` on a concrete store. -/
theorem C2_amended_witness :
    getOp ⟨[("y.py", "a")], none⟩ "x.txt" =
      (⟨false, "File type not allowed", none, StatusCodes.BAD_REQUEST⟩,
        ⟨[("y.py", "a")], none⟩) ∧
    patchOp (fun _ _ => Except.ok (fun _ _ => none)) (fun _ _ _ => [])
        ⟨[("y.py", "a")], none⟩ "x.txt" (some "s/a/b/") =
      (⟨false, "File type not allowed", none, StatusCodes.BAD_REQUEST⟩,
        ⟨[("y.py", "a")], none⟩) := by
  have h := C2_amended "x.txt" (by decide)
  exact ⟨h.1 _, h.2.2.2.2.1 _ _ _ "s/a/b/" (by decide)⟩

/-- Rebuilding a string from its code points is the identity. -/
theorem strData_mk (s : String) : String.mk s.data = s := rfl

/-- With no match anywhere in the content, the first-match scan returns
its suffix unchanged. -/
theorem replaceFirstBy_no_match (m : MatchSubst) (s : List Char)
    (h : ∀ i, m s i = none) :
    ∀ (rem : List Char) (p : Nat), replaceFirstBy m s p rem = rem := by
  intro rem
  induction rem with
  | nil => intro p; simp [replaceFirstBy, h]
  | cons c rest ih => intro p; simp [replaceFirstBy, h, ih]

/-- With no match anywhere in the content, the global scan returns its
suffix unchanged. -/
theorem replaceAllBy_no_match (m : MatchSubst) (s : List Char)
    (h : ∀ i, m s i = none) :
    ∀ (rem : List Char) (p : Nat), replaceAllBy m s p 0 rem = rem := by
  intro rem
  induction rem with
  | nil => intro p; simp [replaceAllBy, h]
  | cons c rest ih => intro p; simp [replaceAllBy, h, ih]

/-- A directive whose compiled pattern matches nowhere in the content
leaves `jsReplace` unchanged, with or without the global flag. -/
theorem jsReplace_no_match (m : MatchSubst) (d : ReplaceDirective) (content : String)
    (h : ∀ i, m content.data i = none) :
    jsReplace m d content = content := by
  unfold jsReplace
  by_cases hg : d.flags = "g"
  · simp [hg, replaceAllBy_no_match m content.data h, strData_mk]
  · simp [hg, replaceFirstBy_no_match m content.data h, strData_mk]

/-- C3: patch on an allowed existing file with a well-formed, compiling
directive: when the substitution leaves the content unchanged — in
particular whenever the compiled find pattern matches nowhere in the
content — the patch is rejected with the NoEffectiveChange reply and the
store keeps the old content; otherwise the new content is persisted and
echoed back with success. -/
theorem C3_patch_no_op_rejection (compile : String → String → Except String JsRegex)
    (subst : SubstOracle) (store : Store) (filename msg content : String)
    (d : ReplaceDirective) (rgx : JsRegex)
    (hallow : isAllowedFile filename = true)
    (hexists : lookupFile store.files filename = some content)
    (hmsg : msg ≠ "")
    (hparse : parseDirective msg = some d)
    (hcompile : compile d.findPattern d.flags = Except.ok rgx) :
    ((∀ i, rgx content.data i = none) → regexReplace rgx subst d content = content) ∧
    (regexReplace rgx subst d content = content →
      patchOp compile subst store filename (some msg) =
        (⟨false,
          "No matching text found in file " ++ filename ++
            " or replacement did not change the content",
          some (Payload.newContent content), StatusCodes.BAD_REQUEST⟩, store)) ∧
    (regexReplace rgx subst d content ≠ content →
      patchOp compile subst store filename (some msg) =
        (⟨true, "File " ++ filename ++ " updated successfully",
          some (Payload.newContent (regexReplace rgx subst d content)),
          StatusCodes.OK⟩,
          ⟨writeFile store.files filename (regexReplace rgx subst d content),
            store.trash⟩)) := by
  refine ⟨fun hnone => ?_, fun hsame => ?_, fun hdiff => ?_⟩
  · exact jsReplace_no_match _ d content (fun i => by simp [toMatchSubst, hnone i])
  · simp [patchOp, hmsg, hallow, hexists, hparse, hcompile, hsame]
  · simp [patchOp, hmsg, hallow, hexists, hparse, hcompile, hdiff]

/-- Witness for C3: both branches on concrete stores, with the honest
per-position behavior of the literal regexes `/zzz/` and `/hello/` — a
pattern matching nowhere is rejected with the store unchanged, a matching
one persists the new content. -/
theorem C3_patch_no_op_rejection_witness :
    patchOp (fun _ _ => Except.ok
        (fun s i => if ['z', 'z', 'z'].isPrefixOf (s.drop i) then some 3 else none))
      (fun _ _ _ => ['h', 'i']) ⟨[("a.py", "hello world")], none⟩ "a.py"
      (some "s/zzz/hi/") =
      (⟨false,
        "No matching text found in file a.py or replacement did not change the content",
        some (Payload.newContent "hello world"), StatusCodes.BAD_REQUEST⟩,
        ⟨[("a.py", "hello world")], none⟩) ∧
    patchOp (fun _ _ => Except.ok
        (fun s i =>
          if ['h', 'e', 'l', 'l', 'o'].isPrefixOf (s.drop i) then some 5 else none))
      (fun _ _ _ => ['h', 'i']) ⟨[("a.py", "hello world")], none⟩ "a.py"
      (some "s/hello/hi/") =
      (⟨true, "File a.py updated successfully", some (Payload.newContent "hi world"),
        StatusCodes.OK⟩, ⟨[("a.py", "hi world")], none⟩) := by
  have h1 := C3_patch_no_op_rejection
    (fun _ _ => Except.ok
      (fun s i => if ['z', 'z', 'z'].isPrefixOf (s.drop i) then some 3 else none))
    (fun _ _ _ => ['h', 'i']) ⟨[("a.py", "hello world")], none⟩ "a.py" "s/zzz/hi/"
    "hello world" ⟨"zzz", "hi", ""⟩
    (fun s i => if ['z', 'z', 'z'].isPrefixOf (s.drop i) then some 3 else none)
    (by decide) (by decide) (by decide) (by decide) rfl
  have h2 := C3_patch_no_op_rejection
    (fun _ _ => Except.ok
      (fun s i =>
        if ['h', 'e', 'l', 'l', 'o'].isPrefixOf (s.drop i) then some 5 else none))
    (fun _ _ _ => ['h', 'i']) ⟨[("a.py", "hello world")], none⟩ "a.py" "s/hello/hi/"
    "hello world" ⟨"hello", "hi", ""⟩
    (fun s i =>
      if ['h', 'e', 'l', 'l', 'o'].isPrefixOf (s.drop i) then some 5 else none)
    (by decide) (by decide) (by decide) (by decide) rfl
  exact ⟨(h1.2.1 (by decide)).trans (by decide), (h2.2.2 (by decide)).trans (by decide)⟩

/-- C7: when the command parses structurally but the find segment fails to
compile (the `new RegExp` oracle reports an error), patch fails with the
InvalidPattern reply carrying the compiler's message, and the store is
unchanged. -/
theorem C7_invalid_pattern (compile : String → String → Except String JsRegex)
    (subst : SubstOracle) (store : Store) (filename msg content emsg : String)
    (d : ReplaceDirective)
    (hallow : isAllowedFile filename = true)
    (hexists : lookupFile store.files filename = some content)
    (hmsg : msg ≠ "")
    (hparse : parseDirective msg = some d)
    (hcompile : compile d.findPattern d.flags = Except.error emsg) :
    patchOp compile subst store filename (some msg) =
      (⟨false, "Invalid regular expression: " ++ emsg, none, StatusCodes.BAD_REQUEST⟩,
        store) := by
  simp [patchOp, hmsg, hallow, hexists, hparse, hcompile]

/-- Witness for C7: a compile oracle rejecting the lone-parenthesis
pattern of `s/(/x/` makes patch answer with the InvalidPattern reply. -/
theorem C7_invalid_pattern_witness :
    patchOp (fun _ _ => Except.error "Invalid regular expression: /(/: Unterminated group")
        (fun _ _ _ => []) ⟨[("a.py", "abc")], none⟩ "a.py" (some "s/(/x/") =
      (⟨false,
        "Invalid regular expression: Invalid regular expression: /(/: Unterminated group",
        none, StatusCodes.BAD_REQUEST⟩, ⟨[("a.py", "abc")], none⟩) := by
  exact C7_invalid_pattern
    (fun _ _ => Except.error "Invalid regular expression: /(/: Unterminated group")
    (fun _ _ _ => []) ⟨[("a.py", "abc")], none⟩ "a.py" "s/(/x/" "abc"
    "Invalid regular expression: /(/: Unterminated group" ⟨"(", "x", ""⟩
    (by decide) (by decide) (by decide) (by decide) rfl

/-- C10: the no-op check compares whole contents: a directive whose
compiled pattern does match the content but whose substitution reproduces
the content exactly (such as replacing a string with itself) is rejected
with the NoEffectiveChange reply and nothing is written. -/
theorem C10_no_op_check_is_content_equality
    (compile : String → String → Except String JsRegex) (subst : SubstOracle)
    (store : Store) (filename msg content : String) (d : ReplaceDirective)
    (rgx : JsRegex) (i : Nat)
    (hallow : isAllowedFile filename = true)
    (hexists : lookupFile store.files filename = some content)
    (hmsg : msg ≠ "")
    (hparse : parseDirective msg = some d)
    (hcompile : compile d.findPattern d.flags = Except.ok rgx)
    (_hmatch : (rgx content.data i).isSome = true)
    (hsame : regexReplace rgx subst d content = content) :
    patchOp compile subst store filename (some msg) =
      (⟨false,
        "No matching text found in file " ++ filename ++
          " or replacement did not change the content",
        some (Payload.newContent content), StatusCodes.BAD_REQUEST⟩, store) := by
  simp [patchOp, hmsg, hallow, hexists, hparse, hcompile, hsame]

/-- Witness for C10: `s/a/a/` on content `abc` with the honest behavior
of `/a/` — the pattern matches at position 0, the substitution changes
nothing, the patch is rejected and the store is unchanged. -/
theorem C10_no_op_check_is_content_equality_witness :
    patchOp (fun _ _ => Except.ok
        (fun s i => if ['a'].isPrefixOf (s.drop i) then some 1 else none))
      (fun _ _ _ => ['a']) ⟨[("a.py", "abc")], none⟩ "a.py" (some "s/a/a/") =
      (⟨false,
        "No matching text found in file a.py or replacement did not change the content",
        some (Payload.newContent "abc"), StatusCodes.BAD_REQUEST⟩,
        ⟨[("a.py", "abc")], none⟩) := by
  exact (C10_no_op_check_is_content_equality
    (fun _ _ => Except.ok
      (fun s i => if ['a'].isPrefixOf (s.drop i) then some 1 else none))
    (fun _ _ _ => ['a']) ⟨[("a.py", "abc")], none⟩ "a.py" "s/a/a/" "abc" ⟨"a", "a", ""⟩
    (fun s i => if ['a'].isPrefixOf (s.drop i) then some 1 else none) 0
    (by decide) (by decide) (by decide) (by decide) rfl (by decide) (by decide)).trans
    (by decide)

/-- Skipping exactly `t.length` already-consumed characters of `t ++ rem`
makes the global scan resume at the suffix `rem`. -/
theorem replaceAllBy_skip (m : MatchSubst) (s : List Char) :
    ∀ (t : List Char) (p : Nat) (rem : List Char),
    replaceAllBy m s p t.length (t ++ rem) = replaceAllBy m s (p + t.length) 0 rem := by
  intro t
  induction t with
  | nil => intro p rem; simp
  | cons x t' ih =>
    intro p rem
    have step : replaceAllBy m s p (t'.length + 1) (x :: (t' ++ rem)) =
        replaceAllBy m s (p + 1) t'.length (t' ++ rem) := by
      rw [replaceAllBy]
    simp only [List.cons_append, List.length_cons]
    rw [step, ih (p + 1) rem]
    congr 1
    omega

/-- First-match replacement at the leftmost match: with no match strictly
before position `i` and a match of extent `len` at `i`, the scan keeps
everything before `i`, inserts the expansion, and keeps the entire tail
after the match — with any later occurrences inside it — verbatim. -/
theorem replaceFirstBy_leftmost (m : MatchSubst) (s : List Char) (i len : Nat)
    (ins : List Char) (hm : m s i = some (len, ins)) :
    ∀ (rem : List Char) (p : Nat), rem = s.drop p → p ≤ i → i ≤ s.length →
    (∀ j, p ≤ j → j < i → m s j = none) →
    replaceFirstBy m s p rem = rem.take (i - p) ++ ins ++ rem.drop ((i - p) + len) := by
  intro rem
  induction rem with
  | nil =>
    intro p hrem hpi hilen _
    have hlen := congrArg List.length hrem
    simp only [List.length_nil, List.length_drop] at hlen
    have hpe : p = i := by omega
    subst hpe
    rw [replaceFirstBy, hm]
    simp
  | cons c rest ih =>
    intro p hrem hpi hilen hnone
    by_cases hpe : p = i
    · subst hpe
      rw [replaceFirstBy, hm]
      simp
    · have hlt : p < i := by omega
      have hnp : m s p = none := hnone p le_rfl hlt
      rw [replaceFirstBy, hnp]
      have hrest : rest = s.drop (p + 1) := by
        have htl := congrArg (List.drop 1) hrem
        simpa [List.drop_drop, Nat.add_comm] using htl
      rw [ih (p + 1) hrest (by omega) hilen (fun j hj1 hj2 => hnone j (by omega) hj2)]
      have h2 : (i - p) + len = ((i - (p + 1)) + len) + 1 := by omega
      have h1 : i - p = (i - (p + 1)) + 1 := by omega
      rw [h2, List.drop_succ_cons, h1, List.take_succ_cons]
      simp

/-- Global replacement at the leftmost match: with no match strictly
before position `i` and a match of positive extent `len` at `i` lying
inside the content, the scan keeps everything before `i`, inserts the
expansion, and continues the same scan right after the match — matches
are consumed left to right and never overlap. -/
theorem replaceAllBy_leftmost (m : MatchSubst) (s : List Char) (i len : Nat)
    (ins : List Char) (hm : m s i = some (len, ins)) (hpos : 0 < len)
    (hfit : i + len ≤ s.length) :
    ∀ (rem : List Char) (p : Nat), rem = s.drop p → p ≤ i →
    (∀ j, p ≤ j → j < i → m s j = none) →
    replaceAllBy m s p 0 rem =
      rem.take (i - p) ++ ins ++ replaceAllBy m s (i + len) 0 (s.drop (i + len)) := by
  intro rem
  induction rem with
  | nil =>
    intro p hrem hpi _
    exfalso
    have hlen := congrArg List.length hrem
    simp only [List.length_nil, List.length_drop] at hlen
    omega
  | cons c rest ih =>
    intro p hrem hpi hnone
    have hrest : rest = s.drop (p + 1) := by
      have htl := congrArg (List.drop 1) hrem
      simpa [List.drop_drop, Nat.add_comm] using htl
    by_cases hpe : p = i
    · subst hpe
      have hlen0 : ¬ len = 0 := by omega
      have hsplit : s.drop (p + 1) =
          (s.drop (p + 1)).take (len - 1) ++ s.drop (p + len) := by
        conv_lhs => rw [← List.take_append_drop (len - 1) (s.drop (p + 1))]
        congr 1
        rw [List.drop_drop]
        congr 1
        omega
      have ht : ((s.drop (p + 1)).take (len - 1)).length = len - 1 := by
        simp only [List.length_take, List.length_drop]
        omega
      have hskip := replaceAllBy_skip m s ((s.drop (p + 1)).take (len - 1)) (p + 1)
        (s.drop (p + len))
      rw [ht] at hskip
      have harith : p + 1 + (len - 1) = p + len := by omega
      rw [harith] at hskip
      rw [replaceAllBy, hm]
      simp only [hlen0, if_false, Nat.sub_self, List.take_zero, List.nil_append]
      rw [hrest, hsplit, hskip]
    · have hlt : p < i := by omega
      have hnp : m s p = none := hnone p le_rfl hlt
      rw [replaceAllBy, hnp]
      rw [ih (p + 1) hrest (by omega) (fun j hj1 hj2 => hnone j (by omega) hj2)]
      have h1 : i - p = (i - (p + 1)) + 1 := by omega
      rw [h1, List.take_succ_cons]
      simp

/-- C4: for every per-position behavior of the compiled find pattern, the
directive without the `g` flag replaces only the engine's first
(leftmost) match — the whole tail after it, with any later occurrences of
a repeated pattern, stays verbatim — while the directive with the `g`
flag replaces it and then continues the same scan right after the match,
consuming all further matches left to right without overlap; with no
match at all the content is unchanged under both flags. -/
theorem C4_replace_engine_semantics (m : MatchSubst) (find repl : String)
    (s : List Char) :
    ((∀ i, m s i = none) →
      jsReplace m ⟨find, repl, ""⟩ (String.mk s) = String.mk s ∧
      jsReplace m ⟨find, repl, "g"⟩ (String.mk s) = String.mk s) ∧
    (∀ (i len : Nat) (ins : List Char),
      (∀ j, j < i → m s j = none) → m s i = some (len, ins) → 0 < len →
      i + len ≤ s.length →
      jsReplace m ⟨find, repl, ""⟩ (String.mk s) =
        String.mk (s.take i ++ ins ++ s.drop (i + len)) ∧
      jsReplace m ⟨find, repl, "g"⟩ (String.mk s) =
        String.mk (s.take i ++ ins ++
          replaceAllBy m s (i + len) 0 (s.drop (i + len)))) := by
  constructor
  · intro hnone
    constructor
    · simp only [jsReplace]
      rw [if_neg (by decide)]
      exact congrArg String.mk (replaceFirstBy_no_match m s hnone s 0)
    · simp only [jsReplace]
      rw [if_pos trivial]
      exact congrArg String.mk (replaceAllBy_no_match m s hnone s 0)
  · intro i len ins hleft hm hpos hfit
    constructor
    · simp only [jsReplace]
      rw [if_neg (by decide)]
      have h := replaceFirstBy_leftmost m s i len ins hm s 0 (by simp) (Nat.zero_le i)
        (by omega) (fun j _ hj => hleft j hj)
      simpa using congrArg String.mk h
    · simp only [jsReplace]
      rw [if_pos trivial]
      have h := replaceAllBy_leftmost m s i len ins hm hpos hfit s 0 (by simp)
        (Nat.zero_le i) (fun j _ hj => hleft j hj)
      simpa using congrArg String.mk h

/-- Witness for C4 at honest engine behaviors: `/b+/` replaced by `X` on
`zab+y` without `g` consumes only the one-character run of `b`, giving
`zaX+y` and leaving the tail verbatim; `/ab/` replaced by `X` on `zababy`
replaces just the first match without `g` and both matches with it. -/
theorem C4_replace_engine_semantics_witness :
    jsReplace
        (fun s i => if ((s.drop i).takeWhile (fun c => c == 'b')).length = 0 then none
          else some (((s.drop i).takeWhile (fun c => c == 'b')).length, ['X']))
        ⟨"b+", "X", ""⟩ "zab+y" = "zaX+y" ∧
    jsReplace (fun s i => if ['a', 'b'].isPrefixOf (s.drop i) then some (2, ['X']) else none)
        ⟨"ab", "X", ""⟩ "zababy" = "zXaby" ∧
    jsReplace (fun s i => if ['a', 'b'].isPrefixOf (s.drop i) then some (2, ['X']) else none)
        ⟨"ab", "X", "g"⟩ "zababy" = "zXXy" := by
  have h1 := (C4_replace_engine_semantics
    (fun s i => if ((s.drop i).takeWhile (fun c => c == 'b')).length = 0 then none
      else some (((s.drop i).takeWhile (fun c => c == 'b')).length, ['X']))
    "b+" "X" "zab+y".data).2 2 1 ['X'] (by decide) (by decide) (by decide) (by decide)
  have h2 := (C4_replace_engine_semantics
    (fun s i => if ['a', 'b'].isPrefixOf (s.drop i) then some (2, ['X']) else none)
    "ab" "X" "zababy".data).2 1 2 ['X'] (by decide) (by decide) (by decide) (by decide)
  exact ⟨h1.1.trans (by decide), h2.1.trans (by decide), h2.2.trans (by decide)⟩

/-- Inversion of the anchored-tail match: a successful `tailFlags` comes
from the empty tail or the single flag `g`. -/
theorem tailFlags_eq_some (l : List Char) (g : Bool) (h : tailFlags l = some g) :
    l = if g then ['g'] else [] := by
  unfold tailFlags at h
  split_ifs at h with h1 h2 <;> simp_all

/-- Soundness of the lazy replacement-segment match: a successful
`parseRepl` decomposes its input as `repl ++ D :: flags` with a
line-terminator-free `repl`. -/
theorem parseRepl_sound (D : Char) :
    ∀ l r g, parseRepl D l = some (r, g) →
      l = r ++ D :: (if g then ['g'] else []) ∧ ∀ c ∈ r, isLineTerm c = false := by
  intro l
  induction l with
  | nil => intro r g h; simp [parseRepl] at h
  | cons c rest ih =>
    intro r g h
    rw [parseRepl] at h
    cases hsc : (if c = D then tailFlags rest else none) with
    | some g0 =>
      rw [hsc] at h
      have h' : (([] : List Char), g0) = (r, g) := Option.some.inj h
      cases h'
      by_cases hc : c = D
      · rw [if_pos hc] at hsc
        subst hc
        simp [tailFlags_eq_some rest _ hsc]
      · rw [if_neg hc] at hsc
        exact absurd hsc (by simp)
    | none =>
      rw [hsc] at h
      by_cases hlt : isLineTerm c
      · rw [if_pos hlt] at h
        exact absurd h (by simp)
      · rw [if_neg hlt] at h
        cases hrec : parseRepl D rest with
        | none => rw [hrec] at h; exact absurd h (by simp)
        | some p =>
          rw [hrec, Option.map_some'] at h
          have h' : (c :: p.1, p.2) = (r, g) := Option.some.inj h
          cases h'
          obtain ⟨hrest, hfree⟩ := ih p.1 p.2 hrec
          subst hrest
          refine ⟨by simp, ?_⟩
          intro x hx
          rcases List.mem_cons.mp hx with rfl | hx'
          · simpa using hlt
          · exact hfree x hx'

/-- Completeness of the lazy replacement-segment match: every
line-terminator-free decomposition `repl ++ D :: flags` is accepted. -/
theorem parseRepl_isSome (D : Char) (_hD : isLineTerm D = false) :
    ∀ (r flags : List Char), (flags = [] ∨ flags = ['g']) →
      (∀ c ∈ r, isLineTerm c = false) →
      (parseRepl D (r ++ D :: flags)).isSome = true := by
  intro r
  induction r with
  | nil =>
    intro flags hflags _
    rcases hflags with rfl | rfl <;> simp [parseRepl, tailFlags]
  | cons c r' ih =>
    intro flags hflags hfree
    rw [List.cons_append, parseRepl]
    cases hsc : (if c = D then tailFlags (r' ++ D :: flags) else none) with
    | some g0 => simp
    | none =>
      have hlt : isLineTerm c = false := hfree c (by simp)
      obtain ⟨p, hp⟩ :=
        Option.isSome_iff_exists.mp (ih flags hflags (fun x hx => hfree x (by simp [hx])))
      simp [hlt, hp]

/-- Soundness of the lazy find-segment match: a successful `parseFind`
decomposes its input as `find ++ D :: repl ++ D :: flags` with
line-terminator-free `find` and `repl`. -/
theorem parseFind_sound (D : Char) :
    ∀ l f r g, parseFind D l = some (f, r, g) →
      l = f ++ D :: (r ++ D :: (if g then ['g'] else [])) ∧
      (∀ c ∈ f, isLineTerm c = false) ∧ ∀ c ∈ r, isLineTerm c = false := by
  intro l
  induction l with
  | nil => intro f r g h; simp [parseFind] at h
  | cons c rest ih =>
    intro f r g h
    rw [parseFind] at h
    cases hsc : (if c = D then parseRepl D rest else none) with
    | some p =>
      obtain ⟨r0, g0⟩ := p
      rw [hsc] at h
      have h' : (([] : List Char), r0, g0) = (f, r, g) := Option.some.inj h
      cases h'
      by_cases hc : c = D
      · rw [if_pos hc] at hsc
        subst hc
        obtain ⟨hrest, hfree⟩ := parseRepl_sound c rest _ _ hsc
        exact ⟨by simp [hrest], by simp, hfree⟩
      · rw [if_neg hc] at hsc
        exact absurd hsc (by simp)
    | none =>
      rw [hsc] at h
      by_cases hlt : isLineTerm c
      · rw [if_pos hlt] at h
        exact absurd h (by simp)
      · rw [if_neg hlt] at h
        cases hrec : parseFind D rest with
        | none => rw [hrec] at h; exact absurd h (by simp)
        | some p =>
          obtain ⟨f0, r0, g0⟩ := p
          rw [hrec, Option.map_some'] at h
          have h' : (c :: f0, r0, g0) = (f, r, g) := Option.some.inj h
          cases h'
          obtain ⟨hrest, hffree, hrfree⟩ := ih _ _ _ hrec
          subst hrest
          refine ⟨by simp, ?_, hrfree⟩
          intro x hx
          rcases List.mem_cons.mp hx with rfl | hx'
          · simpa using hlt
          · exact hffree x hx'

/-- Completeness of the lazy find-segment match: every
line-terminator-free decomposition `find ++ D :: repl ++ D :: flags` is
accepted (possibly with an earlier split than the given one). -/
theorem parseFind_isSome (D : Char) (hD : isLineTerm D = false) :
    ∀ (f r flags : List Char), (flags = [] ∨ flags = ['g']) →
      (∀ c ∈ f, isLineTerm c = false) → (∀ c ∈ r, isLineTerm c = false) →
      (parseFind D (f ++ D :: (r ++ D :: flags))).isSome = true := by
  intro f
  induction f with
  | nil =>
    intro r flags hflags _ hrfree
    rw [List.nil_append, parseFind]
    obtain ⟨p, hp⟩ :=
      Option.isSome_iff_exists.mp (parseRepl_isSome D hD r flags hflags hrfree)
    simp [hp]
  | cons c f' ih =>
    intro r flags hflags hffree hrfree
    rw [List.cons_append, parseFind]
    cases hsc : (if c = D then parseRepl D (f' ++ D :: (r ++ D :: flags)) else none) with
    | some p => simp
    | none =>
      have hlt : isLineTerm c = false := hffree c (by simp)
      obtain ⟨p, hp⟩ := Option.isSome_iff_exists.mp
        (ih r flags hflags (fun x hx => hffree x (by simp [hx])) hrfree)
      simp [hlt, hp]

/-- Success of `parseDirective` is equivalent to the
line-terminator-restricted shape. -/
theorem parseDirective_isSome_iff (cmd : String) :
    (parseDirective cmd).isSome = true ↔ matchesCodeShape cmd := by
  constructor
  · intro h
    rcases hdata : cmd.data with _ | ⟨c, _ | ⟨D, rest⟩⟩ <;>
      simp only [parseDirective, hdata] at h
    · simp at h
    · simp at h
    · by_cases hcond : c = 's' ∧ isLineTerm D = false
      · rw [if_pos hcond] at h
        cases hpf : parseFind D rest with
        | none => rw [hpf] at h; simp at h
        | some t =>
          obtain ⟨f, r, g⟩ := t
          obtain ⟨hrest, hffree, hrfree⟩ := parseFind_sound D rest f r g hpf
          exact ⟨D, f, r, if g then ['g'] else [],
            by cases g <;> simp, hcond.2, hffree, hrfree,
            by rw [hdata, hcond.1, hrest]⟩
      · rw [if_neg hcond] at h
        simp at h
  · rintro ⟨D, f, r, flags, hflags, hD, hffree, hrfree, hdata⟩
    obtain ⟨p, hp⟩ :=
      Option.isSome_iff_exists.mp (parseFind_isSome D hD f r flags hflags hffree hrfree)
    simp [parseDirective, hdata, hD, hp]

/-- A successfully parsed directive reassembles the command: the captured
find, replace and flags segments sit between three copies of a
non-line-terminator delimiter after the leading `s`. -/
theorem parseDirective_sound (cmd : String) (d : ReplaceDirective)
    (h : parseDirective cmd = some d) :
    (d.flags = "" ∨ d.flags = "g") ∧
    ∃ D, isLineTerm D = false ∧
      cmd.data = 's' :: D ::
        (d.findPattern.data ++ D :: (d.replaceStr.data ++ D :: d.flags.data)) := by
  rcases hdata : cmd.data with _ | ⟨c, _ | ⟨D, rest⟩⟩ <;>
    simp only [parseDirective, hdata] at h
  · exact absurd h (by simp)
  · exact absurd h (by simp)
  · by_cases hcond : c = 's' ∧ isLineTerm D = false
    · rw [if_pos hcond] at h
      cases hpf : parseFind D rest with
      | none => rw [hpf] at h; exact absurd h (by simp)
      | some t =>
        obtain ⟨f, r, g⟩ := t
        rw [hpf] at h
        have hd := Option.some.inj h
        obtain ⟨hrest, hffree, hrfree⟩ := parseFind_sound D rest f r g hpf
        subst hd
        refine ⟨by cases g <;> simp, D, hcond.2, ?_⟩
        rw [hcond.1, hrest]
        cases g <;> rfl
    · rw [if_neg hcond] at h
      exact absurd h (by simp)
/-- C1 counterexample: the command `s<LF>a<LF>b<LF>` (delimiter `\n`,
find `a`, replace `b`, no flag) has exactly the claimed
`s<D>find<D>replace<D>` shape, yet parsing fails — the `(.)` and `(.*?)`
groups of the translated regular expression never match a line
terminator. -/
theorem C1_counterexample :
    matchesClaimShape "s\na\nb\n" ∧ parseDirective "s\na\nb\n" = none := by
  constructor
  · exact ⟨'\n', ['a'], ['b'], [], Or.inl rfl, by decide⟩
  · decide

/-- C1 amended: parsing succeeds exactly for commands of the shape
`s<D>find<D>replace<D>` plus an optional trailing `g`, where the single
delimiter `D`, `find` and `replace` contain no line terminator; a
successful parse yields segments that reassemble the command in that
shape (`s/hello/hi/g` yields find `hello`, replace `hi`, flag `g`); and
a command that fails to parse makes patch answer with the literal
InvalidDirectiveFormat message. -/
theorem C1_amended :
    (∀ cmd : String, (parseDirective cmd).isSome = true ↔ matchesCodeShape cmd) ∧
    (∀ (cmd : String) (d : ReplaceDirective), parseDirective cmd = some d →
      (d.flags = "" ∨ d.flags = "g") ∧
      ∃ D, isLineTerm D = false ∧
        cmd.data = 's' :: D ::
          (d.findPattern.data ++ D :: (d.replaceStr.data ++ D :: d.flags.data))) ∧
    parseDirective "s/hello/hi/g" = some ⟨"hello", "hi", "g"⟩ ∧
    (∀ (compile : String → String → Except String JsRegex) (subst : SubstOracle)
        (store : Store) (filename msg content : String),
      isAllowedFile filename = true → lookupFile store.files filename = some content →
      msg ≠ "" → parseDirective msg = none →
      patchOp compile subst store filename (some msg) =
        (⟨false,
          "Invalid find/replace message format. Expected format: s<delimiter>find<delimiter>replace<delimiter>flags",
          none, StatusCodes.BAD_REQUEST⟩, store)) := by
  refine ⟨parseDirective_isSome_iff, parseDirective_sound, by decide, ?_⟩
  intro compile subst store filename msg content hallow hexists hmsg hparse
  simp [patchOp, hmsg, hallow, hexists, hparse]

/-- Witness for C1 amended: a command of the restricted shape parses, and
the ill-formed command of the repository's own test suite makes patch
answer with the literal InvalidDirectiveFormat message. -/
theorem C1_amended_witness :
    (parseDirective "s/x/y/").isSome = true ∧
    patchOp (fun _ _ => Except.ok (fun _ _ => none)) (fun _ _ _ => [])
        ⟨[("f.py", "q")], none⟩ "f.py" (some "not a valid format") =
      (⟨false,
        "Invalid find/replace message format. Expected format: s<delimiter>find<delimiter>replace<delimiter>flags",
        none, StatusCodes.BAD_REQUEST⟩, ⟨[("f.py", "q")], none⟩) := by
  have h := C1_amended
  constructor
  · exact (h.1 "s/x/y/").mpr
      ⟨'/', ['x'], ['y'], [], Or.inl rfl, by decide, by decide, by decide, by decide⟩
  · exact h.2.2.2 (fun _ _ => Except.ok (fun _ _ => none)) (fun _ _ _ => [])
      ⟨[("f.py", "q")], none⟩ "f.py" "not a valid format" "q"
      (by decide) (by decide) (by decide) (by decide)

end CodeExec
